import Mathlib

/-!
Verification of the discopeer peer-discovery registry.

A shallow embedding of `src/server.js` and `src/persistence.js` of the
discopeer repository, with theorems checking the specification's claims
about validation, the expiration filter, the mutation protocol
(register / heartbeat / unsubscribe), discovery, and snapshot
persistence.

Modelling conventions:
* JavaScript request-body values are modelled by `JsValue` (numbers as
  integers, objects as flat string maps; `NaN` and fractional numbers are
  not representable, which no checked claim needs — a fractional or `NaN`
  `ttl` is truthy and therefore rejected by the middleware like every
  other truthy `ttl`, see `validatePeerData`).
* Timestamps (`Date.now()`) are integers in milliseconds, passed to each
  operation as an explicit `now` argument.
* A record stored in the cache is a `StoredPeer` whose `ttl`,
  `registeredAt` and `age` fields are `Option Int`: `none` models a JS
  field that is absent (`undefined`).  Full records (written by the
  register and heartbeat handlers and read back by persistence) carry
  `ttl` and `registeredAt`; the projected public views produced by
  `filterActivePeers` — which the discovery handler writes *back into the
  cache* — carry `age` and lack `ttl` and `registeredAt`.
* Arithmetic on possibly-absent numbers goes through `JNum`, which has
  `NaN` and `-Infinity` values so that `now - undefined`, `undefined *
  1000` and `Math.max()` (of an empty spread) behave as in JS.
* The LRU cache (`lru-cache`, an external dependency) is modelled as a
  plain keyed map recording, per key, the stored member array and the
  `maxAge` argument the server passes to `set`.  Capacity eviction and
  entry staleness of the external cache are outside the embedded state.
-/

/-- A JavaScript value as it can appear in a JSON request body field.
`undef` models an absent field.  Objects are flat string maps (metadata is
opaque to the registry; no checked claim inspects nesting). -/
inductive JsValue where
  | undef
  | null
  | bool (b : Bool)
  | num (n : Int)
  | str (s : String)
  | obj (props : List (String × String))
deriving DecidableEq, Repr

/-- JavaScript truthiness of a `JsValue` (`if (v)`). -/
def JsValue.truthy : JsValue → Bool
  | .undef => false
  | .null => false
  | .bool b => b
  | .num n => n != 0
  | .str s => s != ""
  | .obj _ => true

/-- `typeof v === 'string'`. -/
def JsValue.isString : JsValue → Bool
  | .str _ => true
  | _ => false

/-- `typeof v === 'object'` (true for objects and for `null`). -/
def JsValue.typeofObject : JsValue → Bool
  | .obj _ => true
  | .null => true
  | _ => false

/-- The JSON body of a `POST /subscribe/:secretHash` request
(`req.body` as destructured by `validatePeerData` and the handler). -/
structure Body where
  name : JsValue
  endpoint : JsValue
  ttl : JsValue
  metadata : JsValue
  peerId : JsValue
deriving DecidableEq, Repr

/-- `validatePeerData` (server.js:160-189): the validation middleware, as a
function from the request body to the error message of the 400 response it
sends, or `none` when it calls `next()`.

The `ttl` branch: the body is destructured with `const { name, endpoint,
ttl, metadata, peerId } = req.body`, so the reassignment `ttl =
parseInt(ttl)` inside the `try` throws `TypeError: Assignment to constant
variable` the moment the branch is entered; the `catch` turns that into
the 400.  Hence every truthy `ttl` — `300` included — is rejected, and the
`Number.isInteger`/`ttl < 0` check below the assignment is dead code. -/
def validatePeerData (b : Body) : Option String :=
  if !(b.name.truthy && b.name.isString) then
    some "Invalid name parameter"
  else if !(b.endpoint.truthy && b.endpoint.isString) then
    some "Invalid endpoint parameter"
  else if b.ttl.truthy then
    some "Invalid TTL parameter"
  else if b.metadata.truthy && !b.metadata.typeofObject then
    some "Invalid metadata format"
  else if b.peerId.truthy && !b.peerId.isString then
    some "Invalid peerId format"
  else
    none

/-- A JS number that can arise in the registry's arithmetic: `NaN`
(arithmetic on an absent field), `-Infinity` (`Math.max()` of an empty
spread), or an integer. -/
inductive JNum where
  | nan
  | ninf
  | fin (n : Int)
deriving DecidableEq, Repr

/-- JS `<` on such numbers: any comparison with `NaN` is false. -/
def JNum.ltb : JNum → JNum → Bool
  | .nan, _ => false
  | _, .nan => false
  | .ninf, .ninf => false
  | .ninf, .fin _ => true
  | .fin _, .ninf => false
  | .fin a, .fin b => a < b

/-- Binary `Math.max`: `NaN` absorbs, `-Infinity` is the identity. -/
def JNum.max2 : JNum → JNum → JNum
  | .nan, _ => .nan
  | _, .nan => .nan
  | .ninf, x => x
  | x, .ninf => x
  | .fin a, .fin b => .fin (max a b)

/-- Variadic `Math.max(...xs)` as the source spreads it: `-Infinity` for an
empty argument list. -/
def jsMathMax : List JNum → JNum
  | [] => .ninf
  | x :: rest => JNum.max2 x (jsMathMax rest)

/-- `x * 1000` on a JS number (`NaN` and `-Infinity` are fixed points). -/
def JNum.mul1000 : JNum → JNum
  | .nan => .nan
  | .ninf => .ninf
  | .fin n => .fin (n * 1000)

/-- One element of a member array stored in the cache.  `ttl`,
`registeredAt` and `age` are `Option Int` because the discovery handler
writes the *projected* peer views back into the cache (see
`filterActivePeers`), and those objects lack `ttl` and `registeredAt` and
carry `age` instead.  `none` is JS `undefined`. -/
structure StoredPeer where
  name : String
  endpoint : String
  ttl : Option Int := none
  metadata : JsValue := .obj []
  peerId : String
  sourceAddress : String
  registeredAt : Option Int := none
  age : Option Int := none
deriving DecidableEq, Repr

/-- `now - peer.registeredAt`: `NaN` when the field is absent. -/
def peerAgeMs (now : Int) (p : StoredPeer) : JNum :=
  match p.registeredAt with
  | some r => .fin (now - r)
  | none => .nan

/-- `peer.ttl * 1000`: `NaN` when the field is absent. -/
def peerTtlMs (p : StoredPeer) : JNum :=
  match p.ttl with
  | some t => .fin (t * 1000)
  | none => .nan

/-- The filter predicate of `filterActivePeers` (server.js:122-124):
`(now - peer.registeredAt) < peer.ttl * 1000`. -/
def aliveB (now : Int) (p : StoredPeer) : Bool :=
  JNum.ltb (peerAgeMs now p) (peerTtlMs p)

/-- `Math.round(d / 1000)` for an integer `d` of milliseconds:
`Math.round x = ⌊x + 1/2⌋` (halves round toward positive infinity). -/
def jsRound1000 (d : Int) : Int :=
  Int.fdiv (2 * d + 1000) 2000

/-- The projection of `filterActivePeers` (server.js:125-132): the public
view `{ name, endpoint, sourceAddress, peerId, metadata, age }`.  The
result object has no `ttl` and no `registeredAt` field. -/
def projectPeer (now : Int) (p : StoredPeer) : StoredPeer :=
  { name := p.name
    endpoint := p.endpoint
    ttl := none
    metadata := p.metadata
    peerId := p.peerId
    sourceAddress := p.sourceAddress
    registeredAt := none
    age := p.registeredAt.map (fun r => jsRound1000 (now - r)) }

/-- `filterActivePeers` (server.js:120-133), with the `Date.now()` the
source reads at entry passed in as `now`: keeps the members whose age is
strictly below `ttl * 1000` and maps each to its public view. -/
def filterActivePeers (now : Int) (peers : List StoredPeer) : List StoredPeer :=
  (peers.filter (aliveB now)).map (projectPeer now)

/-- Truncate a natural number to 32 bits (all SHA-256 word arithmetic is
modulo `2^32`). -/
def w32 (n : Nat) : Nat := n % 4294967296

/-- Rotate a 32-bit word right by `k` bits. -/
def rotr32 (k n : Nat) : Nat := w32 ((n >>> k) ||| (n <<< (32 - k)))

/-- SHA-256 `Ch(x,y,z)`; `¬x` on a 32-bit word is xor with `0xFFFFFFFF`. -/
def ch32 (x y z : Nat) : Nat := (x &&& y) ^^^ ((x ^^^ 4294967295) &&& z)

/-- SHA-256 `Maj(x,y,z)`. -/
def maj32 (x y z : Nat) : Nat := (x &&& y) ^^^ (x &&& z) ^^^ (y &&& z)

/-- SHA-256 `Σ₀`. -/
def bigSigma0 (x : Nat) : Nat := rotr32 2 x ^^^ rotr32 13 x ^^^ rotr32 22 x

/-- SHA-256 `Σ₁`. -/
def bigSigma1 (x : Nat) : Nat := rotr32 6 x ^^^ rotr32 11 x ^^^ rotr32 25 x

/-- SHA-256 `σ₀`. -/
def smallSigma0 (x : Nat) : Nat := rotr32 7 x ^^^ rotr32 18 x ^^^ (x >>> 3)

/-- SHA-256 `σ₁`. -/
def smallSigma1 (x : Nat) : Nat := rotr32 17 x ^^^ rotr32 19 x ^^^ (x >>> 10)

/-- The 64 SHA-256 round constants. -/
def K256 : List Nat :=
  [1116352408, 1899447441, 3049323471, 3921009573, 961987163, 1508970993,
   2453635748, 2870763221, 3624381080, 310598401, 607225278, 1426881987,
   1925078388, 2162078206, 2614888103, 3248222580, 3835390401, 4022224774,
   264347078, 604807628, 770255983, 1249150122, 1555081692, 1996064986,
   2554220882, 2821834349, 2952996808, 3210313671, 3336571891, 3584528711,
   113926993, 338241895, 666307205, 773529912, 1294757372, 1396182291,
   1695183700, 1986661051, 2177026350, 2456956037, 2730485921, 2820302411,
   3259730800, 3345764771, 3516065817, 3600352804, 4094571909, 275423344,
   430227734, 506948616, 659060556, 883997877, 958139571, 1322822218,
   1537002063, 1747873779, 1955562222, 2024104815, 2227730452, 2361852424,
   2428436474, 2756734187, 3204031479, 3329325298]

/-- The SHA-256 initial hash value. -/
def H256 : List Nat :=
  [1779033703, 3144134277, 1013904242, 2773480762,
   1359893119, 2600822924, 528734635, 1541459225]

/-- A message length as 8 big-endian bytes. -/
def lenBytes8 (n : Nat) : List Nat :=
  [(n >>> 56) &&& 255, (n >>> 48) &&& 255, (n >>> 40) &&& 255, (n >>> 32) &&& 255,
   (n >>> 24) &&& 255, (n >>> 16) &&& 255, (n >>> 8) &&& 255, n &&& 255]

/-- SHA-256 padding: append `0x80`, zero bytes up to 56 mod 64, then the
bit length as 8 big-endian bytes. -/
def padMessage (m : List Nat) : List Nat :=
  m ++ 128 :: List.replicate ((119 - m.length % 64) % 64) 0 ++ lenBytes8 (8 * m.length)

/-- Big-endian bytes to 32-bit words, four at a time. -/
def toWords : List Nat → List Nat
  | a :: b :: c :: d :: rest => (((a * 256 + b) * 256 + c) * 256 + d) :: toWords rest
  | _ => []

/-- Split a padded message into 64-byte blocks. -/
def toBlocks (bs : List Nat) : List (List Nat) :=
  match bs with
  | [] => []
  | b :: rest => (b :: rest).take 64 :: toBlocks (rest.drop 63)
termination_by bs.length
decreasing_by
  simp only [List.length_cons, List.length_drop]
  omega

/-- Extend a 16-word block to the 64-word message schedule (`n` more
words). -/
def extendSchedule (w : List Nat) : Nat → List Nat
  | 0 => w
  | n + 1 =>
    let t := w.length
    let x := w32 (smallSigma1 (w.getD (t - 2) 0) + w.getD (t - 7) 0 +
                  smallSigma0 (w.getD (t - 15) 0) + w.getD (t - 16) 0)
    extendSchedule (w ++ [x]) n

/-- One SHA-256 compression round on the 8-word working state. -/
def shaRound (k wt : Nat) : List Nat → List Nat
  | [a, b, c, d, e, f, g, h] =>
    let t1 := w32 (h + bigSigma1 e + ch32 e f g + k + wt)
    let t2 := w32 (bigSigma0 a + maj32 a b c)
    [w32 (t1 + t2), a, b, c, w32 (d + t1), e, f, g]
  | st => st

/-- Compress one 64-byte block into the running 8-word hash state. -/
def compressBlock (hs : List Nat) (block : List Nat) : List Nat :=
  let ws := extendSchedule (toWords block) 48
  let st := (K256.zip ws).foldl (fun st kw => shaRound kw.1 kw.2 st) hs
  (hs.zip st).map (fun p => w32 (p.1 + p.2))

/-- A 32-bit word as 4 big-endian bytes. -/
def wordBytes (w : Nat) : List Nat :=
  [(w >>> 24) &&& 255, (w >>> 16) &&& 255, (w >>> 8) &&& 255, w &&& 255]

/-- SHA-256 of a byte sequence, as the 32 digest bytes. -/
def sha256Bytes (msg : List Nat) : List Nat :=
  ((toBlocks (padMessage msg)).foldl compressBlock H256).flatMap wordBytes

/-- UTF-8 encoding of one character (`crypto.update` hashes the UTF-8
bytes of the string). -/
def utf8EncodeChar (c : Char) : List Nat :=
  let n := c.toNat
  if n < 128 then [n]
  else if n < 2048 then [192 ||| (n >>> 6), 128 ||| (n &&& 63)]
  else if n < 65536 then
    [224 ||| (n >>> 12), 128 ||| ((n >>> 6) &&& 63), 128 ||| (n &&& 63)]
  else
    [240 ||| (n >>> 18), 128 ||| ((n >>> 12) &&& 63), 128 ||| ((n >>> 6) &&& 63), 128 ||| (n &&& 63)]

/-- UTF-8 encoding of a string. -/
def utf8Bytes (s : String) : List Nat :=
  s.data.flatMap utf8EncodeChar

/-- One lowercase hex digit. -/
def hexDigit (n : Nat) : Char :=
  if n < 10 then Char.ofNat (48 + n) else Char.ofNat (87 + n)

/-- A byte as two lowercase hex digits. -/
def byteHex (b : Nat) : List Char :=
  [hexDigit (b / 16), hexDigit (b % 16)]

/-- `generateDeterministicPeerId` (server.js:151-157): the first 32 hex
characters of `sha256(`"`${name}:${endpoint}:${sourceAddress}`"`)`. -/
def generateDeterministicPeerId (name endpoint sourceAddress : String) : String :=
  String.mk (((sha256Bytes (utf8Bytes (name ++ ":" ++ endpoint ++ ":" ++ sourceAddress))).flatMap byteHex).take 32)

/-- A cache entry for one group key: the stored member array and the
`maxAge` argument (milliseconds) passed to `peerCache.set`. -/
structure CacheEntry where
  members : List StoredPeer
  maxAgeMs : JNum
deriving DecidableEq, Repr

/-- The registry store: the key → entry map held by `peerCache`.  Keys are
unique (set replaces); lookup takes the first match. -/
abbrev Store := List (String × CacheEntry)

/-- `peerCache.get(key)` on the modelled map. -/
def cacheGet : Store → String → Option CacheEntry
  | [], _ => none
  | e :: rest, k => if e.1 = k then some e.2 else cacheGet rest k

/-- `peerCache.del(key)`: remove the entry for `key`. -/
def cacheDel : Store → String → Store
  | [], _ => []
  | e :: rest, k => if e.1 = k then cacheDel rest k else e :: cacheDel rest k

/-- `peerCache.set(key, peers, maxAge)`: replace the entry for `key`.  The
model keeps the freshest entry in front (observationally equal to the LRU
cache's update for `get`/`del`/enumeration). -/
def cacheSet (s : Store) (k : String) (ms : List StoredPeer) (maxAge : JNum) : Store :=
  (k, ⟨ms, maxAge⟩) :: cacheDel s k

/-- `peerCache.get(secretHash) || []` — the member array of a group, or
empty. -/
def peersOf (s : Store) (k : String) : List StoredPeer :=
  match cacheGet s k with
  | some g => g.members
  | none => []

/-- `Math.max(...peers.map(peer => peer.ttl))` (a `ttl` field that is
absent coerces to `NaN`). -/
def maxTTL (peers : List StoredPeer) : JNum :=
  jsMathMax (peers.map (fun p => match p.ttl with | some t => JNum.fin t | none => JNum.nan))

/-- The string a body field holds.  `name`, `endpoint` and a truthy
`peerId` reach the subscribe handler only as strings (the middleware
rejects every other shape), so the catch-all is unreachable there. -/
def strVal : JsValue → String
  | .str s => s
  | _ => ""

/-- JS `Number(v)` for the values a validated `ttl` can hold: a number
itself, or one of the falsy values `null`, `false`, `""` — all of which
coerce to `0` in the arithmetic (`Math.max`, `ttl * 1000`) the handler
later performs.  Truthy non-numbers never pass the middleware. -/
def numVal : JsValue → Int
  | .num n => n
  | .bool true => 1
  | _ => 0

/-- Result of the subscribe (register) handler: the new store, the JSON
response fields, and whether `notifyPeerChange` ran. -/
structure SubscribeResult where
  store : Store
  peerId : String
  ttlResp : JsValue
  sourceAddress : String
  fanout : Bool
deriving Repr

/-- `const peerId = clientProvidedPeerId || generateDeterministicPeerId(...)`
(server.js:199): the client-supplied id when truthy, else the derived one. -/
def resolvedPeerId (b : Body) (sourceAddress : String) : String :=
  if b.peerId.truthy then strVal b.peerId
  else generateDeterministicPeerId (strVal b.name) (strVal b.endpoint) sourceAddress

/-- `const { ttl = 300 } = req.body` (server.js:194): the destructuring
default applies only when the field is absent (`undefined`). -/
def effectiveTtlVal (b : Body) : JsValue :=
  match b.ttl with
  | .undef => JsValue.num 300
  | v => v

/-- The `peerData` record the subscribe handler builds (server.js:206-214).
The stored `ttl` keeps the numeric coercion of the raw value (identical in
every later numeric use: `Math.max`, `ttl * 1000`, reload filtering). -/
def newPeerData (b : Body) (sourceAddress : String) (now : Int) : StoredPeer :=
  { name := strVal b.name
    endpoint := strVal b.endpoint
    ttl := some (numVal (effectiveTtlVal b))
    metadata := match b.metadata with | .undef => .obj [] | v => v
    peerId := resolvedPeerId b sourceAddress
    sourceAddress := sourceAddress
    registeredAt := some now
    age := none }

/-- The `POST /subscribe/:secretHash` handler (server.js:192-230), after
the middleware accepted the body: resolve the peer id, drop any member
with the same id, append the new record with `registeredAt = now`, store
with `maxAge = Math.max(ttls) * 1000`, and notify. -/
def subscribeOp (s : Store) (secretHash : String) (b : Body) (sourceAddress : String)
    (now : Int) : SubscribeResult :=
  let peers := (peersOf s secretHash).filter (fun p => p.peerId ≠ resolvedPeerId b sourceAddress)
    ++ [newPeerData b sourceAddress now]
  { store := cacheSet s secretHash peers (maxTTL peers).mul1000
    peerId := resolvedPeerId b sourceAddress
    ttlResp := effectiveTtlVal b
    sourceAddress := sourceAddress
    fanout := true }

/-- Result of the discovery handler: the (possibly pruned) store, the
response body, and whether a prune triggered `notifyPeerChange`. -/
structure DiscoveryResult where
  store : Store
  peers : List StoredPeer
  fanout : Bool
deriving Repr

/-- The `GET /discovery/:secretHash` handler (server.js:233-245): filter,
and when the filter removed anyone, write the *filtered views* back
(`peerCache.set(secretHash, activePeers, maxTTL * 1000)` — for an empty
`activePeers`, `Math.max()` is `-Infinity`; for a non-empty one the views
have no `ttl`, so `maxTTL` is `NaN`) and notify. -/
def discoveryOp (s : Store) (secretHash : String) (now : Int) : DiscoveryResult :=
  let peers := peersOf s secretHash
  let activePeers := filterActivePeers now peers
  if activePeers.length < peers.length then
    { store := cacheSet s secretHash activePeers (maxTTL activePeers).mul1000
      peers := activePeers
      fanout := true }
  else
    { store := s, peers := activePeers, fanout := false }

/-- Result of the heartbeat handler.  `fanout` is always `false`: the
handler never calls `notifyPeerChange`. -/
structure HeartbeatResult where
  store : Store
  status : Nat
  fanout : Bool
deriving Repr

/-- `peers[peers.findIndex(p => p.peerId === peerId)].registeredAt = now`:
update the first member with the given id. -/
def touchFirst (peerId : String) (now : Int) : List StoredPeer → List StoredPeer
  | [] => []
  | p :: rest =>
    if p.peerId = peerId then { p with registeredAt := some now } :: rest
    else p :: touchFirst peerId now rest

/-- The `POST /heartbeat/:secretHash/:peerId` handler (server.js:272-286):
404 when `findIndex` misses (the raw stored list is searched — expiry is
not consulted); otherwise refresh `registeredAt` of the first match and
write back with recomputed `maxAge`. -/
def heartbeatOp (s : Store) (secretHash peerId : String) (now : Int) : HeartbeatResult :=
  let peers := peersOf s secretHash
  if peers.any (fun p => p.peerId = peerId) then
    let peers := touchFirst peerId now peers
    { store := cacheSet s secretHash peers (maxTTL peers).mul1000, status := 200, fanout := false }
  else
    { store := s, status := 404, fanout := false }

/-- Result of the unsubscribe handler (always status 200; always
notifies). -/
structure UnsubscribeResult where
  store : Store
  status : Nat
  fanout : Bool
deriving Repr

/-- The `DELETE /unsubscribe/:secretHash/:peerId` handler
(server.js:289-305): drop the members with the given id; write back with
recomputed `maxAge` when any member remains, delete the key otherwise;
notify in every case. -/
def unsubscribeOp (s : Store) (secretHash peerId : String) : UnsubscribeResult :=
  let peers := (peersOf s secretHash).filter (fun p => p.peerId ≠ peerId)
  if 0 < peers.length then
    { store := cacheSet s secretHash peers (maxTTL peers).mul1000, status := 200, fanout := true }
  else
    { store := cacheDel s secretHash, status := 200, fanout := true }

/-- `PersistenceManager.save` (persistence.js:55-67): dump every stored
`(hash, peers)` entry verbatim — no filtering. -/
def persistenceSave (s : Store) : List (String × List StoredPeer) :=
  s.map (fun e => (e.1, e.2.members))

/-- `PersistenceManager.load` (persistence.js:27-53): for each `(hash,
peers)` entry of the snapshot, filter out expired members (same predicate
as `filterActivePeers`, but keeping the raw records) and insert the group
only when someone survives. -/
def persistenceLoad (now : Int) : List (String × List StoredPeer) → Store → Store
  | [], s => s
  | (hash, peers) :: rest, s =>
    let activePeers := peers.filter (aliveB now)
    persistenceLoad now rest
      (if 0 < activePeers.length then cacheSet s hash activePeers (maxTTL activePeers).mul1000
       else s)

/-- The stores reachable from an empty cache through the four HTTP
operations (each subscribe carries a body the middleware accepted). -/
inductive Reach : Store → Prop where
  | init : Reach []
  | subscribe (s : Store) (h : Reach s) (k : String) (b : Body) (src : String) (now : Int)
      (hb : validatePeerData b = none) : Reach (subscribeOp s k b src now).store
  | heartbeat (s : Store) (h : Reach s) (k pid : String) (now : Int) :
      Reach (heartbeatOp s k pid now).store
  | unsubscribe (s : Store) (h : Reach s) (k pid : String) :
      Reach (unsubscribeOp s k pid).store
  | discovery (s : Store) (h : Reach s) (k : String) (now : Int) :
      Reach (discoveryOp s k now).store

/-- The stores reachable through the three mutation operations alone
(register / heartbeat / unsubscribe — no discovery write-back). -/
inductive ReachM : Store → Prop where
  | init : ReachM []
  | subscribe (s : Store) (h : ReachM s) (k : String) (b : Body) (src : String) (now : Int)
      (hb : validatePeerData b = none) : ReachM (subscribeOp s k b src now).store
  | heartbeat (s : Store) (h : ReachM s) (k pid : String) (now : Int) :
      ReachM (heartbeatOp s k pid now).store
  | unsubscribe (s : Store) (h : ReachM s) (k pid : String) :
      ReachM (unsubscribeOp s k pid).store

theorem cacheGet_del_self (s : Store) (k : String) : cacheGet (cacheDel s k) k = none := by
  induction s with
  | nil => rfl
  | cons e rest ih =>
    by_cases h : e.1 = k <;> simp [cacheDel, cacheGet, h, ih]

theorem cacheGet_del_ne (s : Store) (k k' : String) (h : k' ≠ k) :
    cacheGet (cacheDel s k) k' = cacheGet s k' := by
  induction s with
  | nil => rfl
  | cons e rest ih =>
    by_cases he : e.1 = k
    · simp [cacheDel, cacheGet, he, ih, Ne.symm h]
    · by_cases he' : e.1 = k' <;> simp [cacheDel, cacheGet, he, he', ih, h]

theorem cacheGet_set_self (s : Store) (k : String) (ms : List StoredPeer) (a : JNum) :
    cacheGet (cacheSet s k ms a) k = some ⟨ms, a⟩ := by
  simp [cacheSet, cacheGet]

theorem cacheGet_set_ne (s : Store) (k k' : String) (ms : List StoredPeer) (a : JNum)
    (h : k' ≠ k) : cacheGet (cacheSet s k ms a) k' = cacheGet s k' := by
  simp [cacheSet, cacheGet, Ne.symm h, cacheGet_del_ne s k k' h]

theorem peersOf_set_self (s : Store) (k : String) (ms : List StoredPeer) (a : JNum) :
    peersOf (cacheSet s k ms a) k = ms := by
  simp [peersOf, cacheGet_set_self]

theorem filterActivePeers_append (now : Int) (l1 l2 : List StoredPeer) :
    filterActivePeers now (l1 ++ l2) = filterActivePeers now l1 ++ filterActivePeers now l2 := by
  simp [filterActivePeers]

theorem maxTTL_spec (ms : List StoredPeer) (hne : ms ≠ [])
    (hfull : ∀ p ∈ ms, (p.ttl).isSome) :
    ∃ T, maxTTL ms = .fin T ∧ (∃ p ∈ ms, p.ttl = some T) ∧
      ∀ p ∈ ms, ∀ u, p.ttl = some u → u ≤ T := by
  induction ms with
  | nil => exact absurd rfl hne
  | cons p rest ih =>
    obtain ⟨t, ht⟩ := Option.isSome_iff_exists.mp (hfull p (by simp))
    match rest, ih with
    | [], _ =>
      refine ⟨t, ?_, ⟨p, by simp, ht⟩, ?_⟩
      · simp [maxTTL, jsMathMax, ht, JNum.max2]
      · intro q hq u hu
        simp only [List.mem_singleton] at hq
        subst hq
        rw [ht] at hu
        exact le_of_eq (Option.some_injective _ hu).symm
    | q :: rest', ih =>
      obtain ⟨T, hT, ⟨w, hw, hwt⟩, hub⟩ :=
        ih (by simp) (fun x hx => hfull x (List.mem_cons_of_mem _ hx))
      refine ⟨max t T, ?_, ?_, ?_⟩
      · have : maxTTL (p :: q :: rest') = JNum.max2 (.fin t) (maxTTL (q :: rest')) := by
          simp [maxTTL, jsMathMax, ht]
        rw [this, hT]
        rfl
      · rcases max_choice t T with hm | hm
        · exact ⟨p, by simp, by rw [ht, hm]⟩
        · exact ⟨w, List.mem_cons_of_mem _ hw, by rw [hwt, hm]⟩
      · intro x hx u hu
        rcases List.mem_cons.mp hx with hx | hx
        · subst hx
          rw [ht] at hu
          exact le_trans (le_of_eq (Option.some_injective _ hu).symm) (le_max_left _ _)
        · exact le_trans (hub x hx u hu) (le_max_right _ _)

theorem touchFirst_length (pid : String) (now : Int) (l : List StoredPeer) :
    (touchFirst pid now l).length = l.length := by
  induction l with
  | nil => rfl
  | cons p rest ih =>
    by_cases h : p.peerId = pid <;> simp [touchFirst, h, ih]

theorem touchFirst_decomp_first (l : List StoredPeer) (pid : String) (now : Int)
    (hany : l.any (fun p => p.peerId = pid) = true) :
    ∃ l1 p l2, l = l1 ++ p :: l2 ∧ (∀ q ∈ l1, q.peerId ≠ pid) ∧ p.peerId = pid ∧
      touchFirst pid now l = l1 ++ ({ p with registeredAt := some now }) :: l2 := by
  induction l with
  | nil => simp at hany
  | cons q rest ih =>
    by_cases hq : q.peerId = pid
    · exact ⟨[], q, rest, by simp, by simp, hq, by simp [touchFirst, hq]⟩
    · have hr : rest.any (fun p => p.peerId = pid) = true := by
        simpa [List.any_cons, hq] using hany
      obtain ⟨l1, p, l2, hl, hl1, hp, ht⟩ := ih hr
      exact ⟨q :: l1, p, l2, by simp [hl], by simpa [hq] using hl1, hp,
        by simp [touchFirst, hq, ht]⟩

theorem touchFirst_decomp_nodup (l : List StoredPeer) (pid : String) (now : Int)
    (p : StoredPeer) (hmem : p ∈ l) (hpid : p.peerId = pid)
    (hnd : (l.map StoredPeer.peerId).Nodup) :
    ∃ l1 l2, l = l1 ++ p :: l2 ∧ (∀ q ∈ l1, q.peerId ≠ pid) ∧
      touchFirst pid now l = l1 ++ ({ p with registeredAt := some now }) :: l2 := by
  induction l with
  | nil => simp at hmem
  | cons q rest ih =>
    rw [List.map_cons, List.nodup_cons] at hnd
    by_cases hq : q.peerId = pid
    · have hpq : p = q := by
        rcases List.mem_cons.mp hmem with h | h
        · exact h
        · have : q.peerId ∈ List.map StoredPeer.peerId rest := by
            rw [hq, ← hpid]
            exact List.mem_map_of_mem _ h
          exact absurd this hnd.1
      subst hpq
      exact ⟨[], rest, by simp, by simp, by simp [touchFirst, hq]⟩
    · have hpr : p ∈ rest := by
        rcases List.mem_cons.mp hmem with h | h
        · exact absurd (h ▸ hpid) hq
        · exact h
      obtain ⟨l1, l2, hl, hl1, ht⟩ := ih hpr hnd.2
      exact ⟨q :: l1, l2, by simp [hl], by simpa [hq] using hl1,
        by simp [touchFirst, hq, ht]⟩

theorem save_lookup (s : Store) (k : String) :
    (persistenceSave s).lookup k = (cacheGet s k).map CacheEntry.members := by
  induction s with
  | nil => rfl
  | cons e rest ih =>
    by_cases h : e.1 = k
    · simp [persistenceSave, List.lookup, cacheGet, h]
    · have hbeq : (k == e.1) = false := beq_eq_false_iff_ne.mpr (Ne.symm h)
      simp only [persistenceSave, List.map_cons, List.lookup, hbeq, cacheGet, if_neg h]
      exact ih

theorem cacheGet_loadStep (now : Int) (s0 : Store) (hash : String) (ps : List StoredPeer)
    (k : String) (hk : k ≠ hash) :
    cacheGet
      (if 0 < (ps.filter (aliveB now)).length then
        cacheSet s0 hash (ps.filter (aliveB now)) (maxTTL (ps.filter (aliveB now))).mul1000
       else s0) k = cacheGet s0 k := by
  split
  · exact cacheGet_set_ne s0 hash k _ _ hk
  · rfl

theorem load_preserves (now : Int) (es : List (String × List StoredPeer)) (s0 : Store)
    (k : String) (hk : ∀ e ∈ es, e.1 ≠ k) :
    cacheGet (persistenceLoad now es s0) k = cacheGet s0 k := by
  induction es generalizing s0 with
  | nil => rfl
  | cons e rest ih =>
    obtain ⟨hash, ps⟩ := e
    have hne : k ≠ hash := Ne.symm (hk (hash, ps) (by simp))
    simp only [persistenceLoad]
    rw [ih _ (fun x hx => hk x (List.mem_cons_of_mem _ hx))]
    exact cacheGet_loadStep now s0 hash ps k hne

theorem load_lookup (now : Int) (es : List (String × List StoredPeer)) (s0 : Store)
    (k : String) (hnd : (es.map Prod.fst).Nodup) :
    cacheGet (persistenceLoad now es s0) k =
      match es.lookup k with
      | some ps =>
        if ps.filter (aliveB now) = [] then cacheGet s0 k
        else some ⟨ps.filter (aliveB now), (maxTTL (ps.filter (aliveB now))).mul1000⟩
      | none => cacheGet s0 k := by
  induction es generalizing s0 with
  | nil => rfl
  | cons e rest ih =>
    obtain ⟨hash, ps⟩ := e
    rw [List.map_cons, List.nodup_cons] at hnd
    by_cases hk : k = hash
    · subst hk
      have hrest : ∀ x ∈ rest, x.1 ≠ k := by
        intro x hx hx1
        have hm : x.1 ∈ List.map Prod.fst rest := List.mem_map_of_mem _ hx
        rw [hx1] at hm
        exact hnd.1 hm
      simp only [persistenceLoad]
      rw [load_preserves now rest _ k hrest]
      simp only [List.lookup, beq_self_eq_true]
      by_cases hact : 0 < (ps.filter (aliveB now)).length
      · have hne : ¬ ps.filter (aliveB now) = [] := by
          intro hx
          rw [hx] at hact
          simp at hact
        rw [if_pos hact, cacheGet_set_self]
        simp [hne]
      · have heq : ps.filter (aliveB now) = [] := by
          rcases List.eq_nil_or_concat (ps.filter (aliveB now)) with h | ⟨l, x, h⟩
          · exact h
          · rw [h] at hact
            simp at hact
        rw [if_neg hact]
        simp [heq]
    · have hbeq : (k == hash) = false := beq_eq_false_iff_ne.mpr hk
      simp only [persistenceLoad, List.lookup, hbeq]
      rw [ih _ hnd.2]
      cases hlk : rest.lookup k with
      | none => simp [cacheGet_loadStep now s0 hash ps k hk]
      | some ps' =>
        by_cases hf : ps'.filter (aliveB now) = [] <;>
          simp [hf, cacheGet_loadStep now s0 hash ps k hk]

/-- The register request body documented in the repository's README:
`{"name": "service1", "endpoint": "http://192.168.1.100:8080", "ttl": 300,
"metadata": {"region": "us-east"}}`. -/
def readmeBody : Body :=
  { name := .str "service1"
    endpoint := .str "http://192.168.1.100:8080"
    ttl := .num 300
    metadata := .obj [("region", "us-east")]
    peerId := .undef }

/-- Claim C1: the claim states that a Register request whose `ttlSeconds`
is a valid positive integer is not rejected with `ValidationError`.  The
code rejects it: `validatePeerData` destructures the body with `const`,
so the reassignment `ttl = parseInt(ttl)` in its `try` block throws, and
the `catch` answers 400 "Invalid TTL parameter" for *every* truthy `ttl`.
The README's own documented example body (`ttl: 300`) is refused, and the
identical body without `ttl` passes, isolating `ttl` as the cause. -/
theorem c1_valid_ttl_rejected :
    validatePeerData readmeBody = some "Invalid TTL parameter"
    ∧ validatePeerData { readmeBody with ttl := .undef } = none :=
  ⟨rfl, rfl⟩

/-- A valid register body with `ttl: 0` (falsy, so it passes the
middleware) and no client-supplied `peerId`. -/
def c2Body : Body :=
  { name := .str "svc1", endpoint := .str "e", ttl := .num 0,
    metadata := .undef, peerId := .undef }

/-- The store after registering `c2Body` into group `"g"` at `t = 1000`
and then running discovery on `"g"` at the same instant: the lone member
(ttl 0) is pruned, and the handler stores the *empty* member list back
under `"g"` with `Math.max() * 1000 = -Infinity` as `maxAge`. -/
def c2Store : Store :=
  (discoveryOp (subscribeOp [] "g" c2Body "1.2.3.4:5" 1000).store "g" 1000).store

/-- Claim C2 counterexample: a reachable state in which the group key
`"g"` maps to an empty member list — the discovery handler's prune-all
path calls `peerCache.set(hash, [], -Infinity)` instead of deleting the
key, so the claimed invariant does not hold at every reachable state. -/
theorem c2_empty_group_stored :
    Reach c2Store ∧ cacheGet c2Store "g" = some ⟨[], .ninf⟩ :=
  ⟨Reach.discovery _ (Reach.subscribe [] Reach.init "g" c2Body "1.2.3.4:5" 1000 rfl) "g" 1000,
   rfl⟩

/-- Claim C2 (amended): across the three mutation operations — register,
heartbeat, unsubscribe (the last deleting the key when it empties the
group) — no stored group is empty; the discovery write-back is the one
exception. -/
theorem c2_mutations_no_empty_group (s : Store) (h : ReachM s) :
    ∀ k g, cacheGet s k = some g → g.members ≠ [] := by
  induction h with
  | init =>
    intro k g hg
    simp [cacheGet] at hg
  | subscribe s hs k0 b src now hb ih =>
    intro k g hg
    simp only [subscribeOp] at hg
    by_cases hk : k = k0
    · subst hk
      rw [cacheGet_set_self] at hg
      obtain rfl := (Option.some_injective _ hg).symm
      simp
    · rw [cacheGet_set_ne _ _ _ _ _ hk] at hg
      exact ih k g hg
  | heartbeat s hs k0 pid now ih =>
    intro k g hg
    by_cases hc : (peersOf s k0).any (fun p => p.peerId = pid) = true
    · simp only [heartbeatOp, hc, if_true] at hg
      by_cases hk : k = k0
      · subst hk
        rw [cacheGet_set_self] at hg
        obtain rfl := (Option.some_injective _ hg).symm
        have hne : peersOf s k ≠ [] := by
          obtain ⟨x, hx, _⟩ := List.any_eq_true.mp hc
          exact List.ne_nil_of_mem hx
        have : 0 < (touchFirst pid now (peersOf s k)).length := by
          rw [touchFirst_length]
          exact List.length_pos.mpr hne
        exact List.length_pos.mp this
      · rw [cacheGet_set_ne _ _ _ _ _ hk] at hg
        exact ih k g hg
    · simp only [heartbeatOp, hc, if_false, Bool.not_eq_true] at hg
      exact ih k g hg
  | unsubscribe s hs k0 pid ih =>
    intro k g hg
    by_cases hc : 0 < ((peersOf s k0).filter (fun p => p.peerId ≠ pid)).length
    · simp only [unsubscribeOp, hc, if_true] at hg
      by_cases hk : k = k0
      · subst hk
        rw [cacheGet_set_self] at hg
        obtain rfl := (Option.some_injective _ hg).symm
        exact List.length_pos.mp hc
      · rw [cacheGet_set_ne _ _ _ _ _ hk] at hg
        exact ih k g hg
    · simp only [unsubscribeOp, hc, if_false] at hg
      by_cases hk : k = k0
      · subst hk
        rw [cacheGet_del_self] at hg
        exact absurd hg (by simp)
      · rw [cacheGet_del_ne _ _ _ hk] at hg
        exact ih k g hg

/-- The full record the register handler builds for `c2Body` in group
`"g"` at `t = 1000` from source address `1.2.3.4:5`. -/
def c2Peer1 : StoredPeer :=
  { name := "svc1", endpoint := "e", ttl := some 0, metadata := .obj [],
    peerId := generateDeterministicPeerId "svc1" "e" "1.2.3.4:5",
    sourceAddress := "1.2.3.4:5", registeredAt := some 1000, age := none }

theorem c2_mutations_no_empty_group_witness :
    ({ members := [c2Peer1], maxAgeMs := .fin 0 } : CacheEntry).members ≠ [] :=
  c2_mutations_no_empty_group (subscribeOp [] "g" c2Body "1.2.3.4:5" 1000).store
    (ReachM.subscribe [] ReachM.init "g" c2Body "1.2.3.4:5" 1000 rfl) "g"
    ⟨[c2Peer1], .fin 0⟩ rfl

/-- The spec's PeerRecord: a full member record (every field present). -/
structure PeerRecord where
  name : String
  endpoint : String
  ttl : Int
  metadata : JsValue
  peerId : String
  sourceAddress : String
  registeredAt : Int
deriving DecidableEq, Repr

/-- A PeerRecord as the cache stores it. -/
def PeerRecord.toStored (p : PeerRecord) : StoredPeer :=
  { name := p.name, endpoint := p.endpoint, ttl := some p.ttl,
    metadata := p.metadata, peerId := p.peerId, sourceAddress := p.sourceAddress,
    registeredAt := some p.registeredAt, age := none }

/-- The spec's public view of a member:
`{name, endpoint, sourceAddress, peerId, metadata, age}`. -/
structure PublicView where
  name : String
  endpoint : String
  sourceAddress : String
  peerId : String
  metadata : JsValue
  age : Int
deriving DecidableEq, Repr

/-- A public view as the JS object it is (no `ttl`, no `registeredAt`). -/
def PublicView.toStored (v : PublicView) : StoredPeer :=
  { name := v.name, endpoint := v.endpoint, ttl := none, metadata := v.metadata,
    peerId := v.peerId, sourceAddress := v.sourceAddress, registeredAt := none,
    age := some v.age }

/-- The Expiration Filter as the spec words it (for comparison with the
source's `filterActivePeers`): the sub-sequence of records satisfying
`now − registeredAt < ttlSeconds × 1000`, each projected to
`{name, endpoint, sourceAddress, peerId, metadata, age}` with
`age = round((now − registeredAt)/1000)`. -/
def expirationFilterSpec (now : Int) (peers : List PeerRecord) : List PublicView :=
  (peers.filter (fun p => now - p.registeredAt < p.ttl * 1000)).map
    (fun p =>
      { name := p.name, endpoint := p.endpoint, sourceAddress := p.sourceAddress,
        peerId := p.peerId, metadata := p.metadata,
        age := jsRound1000 (now - p.registeredAt) })

theorem aliveB_toStored (now : Int) (p : PeerRecord) :
    aliveB now p.toStored = decide (now - p.registeredAt < p.ttl * 1000) := rfl

theorem projectPeer_toStored (now : Int) (p : PeerRecord) :
    projectPeer now p.toStored =
      PublicView.toStored
        { name := p.name, endpoint := p.endpoint, sourceAddress := p.sourceAddress,
          peerId := p.peerId, metadata := p.metadata,
          age := jsRound1000 (now - p.registeredAt) } := rfl

/-- Claim C3: on full records, the source's `filterActivePeers` computes
exactly the spec's Expiration Filter (strict sub-sequence selection plus
projection with rounded age), and it depends only on `now` and the record
sequence since both are explicit arguments of the pure function.  The
boundary is strict: a member whose age is exactly `ttl × 1000` is
excluded; one at `ttl × 1000 − 1` is included with its projected view. -/
theorem c3_expiration_filter (now : Int) (peers : List PeerRecord) (p : PeerRecord) :
    filterActivePeers now (peers.map PeerRecord.toStored)
      = (expirationFilterSpec now peers).map PublicView.toStored
    ∧ (now - p.registeredAt = p.ttl * 1000 →
        filterActivePeers now [p.toStored] = [])
    ∧ (now - p.registeredAt = p.ttl * 1000 - 1 →
        filterActivePeers now [p.toStored]
          = [PublicView.toStored
              { name := p.name, endpoint := p.endpoint, sourceAddress := p.sourceAddress,
                peerId := p.peerId, metadata := p.metadata,
                age := jsRound1000 (now - p.registeredAt) }]) := by
  refine ⟨?_, ?_, ?_⟩
  · induction peers with
    | nil => rfl
    | cons q rest ih =>
      simp only [filterActivePeers, expirationFilterSpec] at ih ⊢
      by_cases hq : now - q.registeredAt < q.ttl * 1000
      · simpa [List.filter_cons, aliveB_toStored, hq, projectPeer_toStored] using ih
      · simpa [List.filter_cons, aliveB_toStored, hq] using ih
  · intro heq
    have halive : aliveB now p.toStored = false := by
      rw [aliveB_toStored, heq]
      simp
    simp [filterActivePeers, List.filter, halive]
  · intro heq
    have halive : aliveB now p.toStored = true := by
      rw [aliveB_toStored, heq]
      simp
    simp [filterActivePeers, List.filter, halive, projectPeer_toStored]

/-- The spec's boundary example: `ttl = 2` seconds, registered at `0`. -/
def c3PeerEdge : PeerRecord :=
  { name := "svc1", endpoint := "http://10.0.0.1:8080", ttl := 2,
    metadata := .obj [], peerId := "A", sourceAddress := "1.2.3.4:5",
    registeredAt := 0 }

theorem c3_expiration_filter_witness :
    filterActivePeers 2000 [c3PeerEdge.toStored] = [] :=
  (c3_expiration_filter 2000 [] c3PeerEdge).2.1 (by decide)

theorem filter_ne_length_of_nodup (l : List StoredPeer) (pid : String)
    (hnd : (l.map StoredPeer.peerId).Nodup) (hmem : pid ∈ l.map StoredPeer.peerId) :
    (l.filter (fun p => p.peerId ≠ pid)).length + 1 = l.length := by
  induction l with
  | nil => simp at hmem
  | cons q rest ih =>
    rw [List.map_cons, List.nodup_cons] at hnd
    by_cases hq : q.peerId = pid
    · have hall : ∀ a ∈ rest, a.peerId ≠ pid := by
        intro a ha hap
        have : q.peerId ∈ List.map StoredPeer.peerId rest := by
          rw [hq, ← hap]
          exact List.mem_map_of_mem _ ha
        exact hnd.1 this
      have hfc : (q :: rest).filter (fun p => p.peerId ≠ pid) = rest := by
        rw [List.filter_cons]
        have hd : (decide (q.peerId ≠ pid)) = false := by simp [hq]
        rw [hd, if_neg Bool.false_ne_true]
        exact List.filter_eq_self.mpr (fun a ha => by simpa using hall a ha)
      rw [hfc]
      simp
    · have hmem' : pid ∈ rest.map StoredPeer.peerId := by
        rcases List.mem_map.mp hmem with ⟨x, hx, hxe⟩
        rcases List.mem_cons.mp hx with h | h
        · exact absurd (h ▸ hxe) hq
        · rw [← hxe]
          exact List.mem_map_of_mem _ h
      have hih := ih hnd.2 hmem'
      have hfc : (q :: rest).filter (fun p => p.peerId ≠ pid) =
          q :: rest.filter (fun p => p.peerId ≠ pid) := by
        rw [List.filter_cons]
        have hd : (decide (q.peerId ≠ pid)) = true := by simp [hq]
        rw [hd, if_pos rfl]
      rw [hfc, List.length_cons, List.length_cons]
      omega

/-- Claim C4: unsubscribe always answers 200 and always triggers fan-out;
an absent `peerId` is a no-op on the member list; a present one removes
the matching members — exactly one under the per-group uniqueness
invariant — writing back with recomputed TTL when the remainder is
non-empty and deleting the group key when it is empty. -/
theorem c4_unsubscribe_idempotent (s : Store) (k pid : String) :
    (unsubscribeOp s k pid).fanout = true
    ∧ (unsubscribeOp s k pid).status = 200
    ∧ (pid ∉ (peersOf s k).map StoredPeer.peerId →
        peersOf (unsubscribeOp s k pid).store k = peersOf s k)
    ∧ ((peersOf s k).filter (fun p => p.peerId ≠ pid) = [] →
        cacheGet (unsubscribeOp s k pid).store k = none)
    ∧ ((peersOf s k).filter (fun p => p.peerId ≠ pid) ≠ [] →
        cacheGet (unsubscribeOp s k pid).store k =
          some ⟨(peersOf s k).filter (fun p => p.peerId ≠ pid),
                (maxTTL ((peersOf s k).filter (fun p => p.peerId ≠ pid))).mul1000⟩)
    ∧ (((peersOf s k).map StoredPeer.peerId).Nodup →
        pid ∈ (peersOf s k).map StoredPeer.peerId →
        (peersOf (unsubscribeOp s k pid).store k).length + 1 = (peersOf s k).length) := by
  have hpo : peersOf (unsubscribeOp s k pid).store k =
      (peersOf s k).filter (fun p => p.peerId ≠ pid) := by
    simp only [unsubscribeOp]
    split
    · exact peersOf_set_self _ _ _ _
    · rename_i hlen
      have hnil : (peersOf s k).filter (fun p => p.peerId ≠ pid) = [] := by
        rcases List.eq_nil_or_concat ((peersOf s k).filter (fun p => p.peerId ≠ pid)) with
          h | ⟨l, x, h⟩
        · exact h
        · rw [h] at hlen
          simp at hlen
      rw [hnil]
      simp [peersOf, cacheGet_del_self]
  refine ⟨?_, ?_, ?_, ?_, ?_, ?_⟩
  · simp only [unsubscribeOp]
    split <;> rfl
  · simp only [unsubscribeOp]
    split <;> rfl
  · intro hnot
    rw [hpo]
    refine List.filter_eq_self.mpr ?_
    intro a ha
    have : a.peerId ≠ pid := by
      intro hap
      exact hnot (hap ▸ List.mem_map_of_mem _ ha)
    simpa using this
  · intro hf
    simp only [unsubscribeOp]
    have hlen : ¬ 0 < ((peersOf s k).filter (fun p => p.peerId ≠ pid)).length := by
      rw [hf]
      simp
    rw [if_neg hlen]
    exact cacheGet_del_self _ _
  · intro hf
    simp only [unsubscribeOp]
    have hlen : 0 < ((peersOf s k).filter (fun p => p.peerId ≠ pid)).length :=
      List.length_pos.mpr hf
    rw [if_pos hlen]
    exact cacheGet_set_self _ _ _ _
  · intro hnd hmem
    rw [hpo]
    exact filter_ne_length_of_nodup _ _ hnd hmem

theorem c4_unsubscribe_idempotent_witness :
    (unsubscribeOp [] "g" "absent").fanout = true :=
  (c4_unsubscribe_idempotent [] "g" "absent").1

theorem maxTTL_nan_of_missing (ms : List StoredPeer) (h : ∃ p ∈ ms, p.ttl = none) :
    maxTTL ms = .nan := by
  induction ms with
  | nil => simp at h
  | cons q rest ih =>
    by_cases hq : q.ttl = none
    · simp [maxTTL, List.map_cons, jsMathMax, hq, JNum.max2]
    · obtain ⟨p, hp, hpt⟩ := h
      rcases List.mem_cons.mp hp with heq | hp2
      · exact absurd (heq ▸ hpt) hq
      · have hrest := ih ⟨p, hp2, hpt⟩
        cases hqt : q.ttl with
        | none => exact absurd hqt hq
        | some t =>
          simp only [maxTTL, List.map_cons, jsMathMax] at hrest ⊢
          rw [hqt, hrest]
          rfl

/-- What the stored `maxAge` of a freshly written group satisfies: when
every written member carries a `ttl`, it is `T * 1000` for the maximum
member `ttlSeconds` `T` (attained by some member and bounding all); when
some written member lacks the field — the ttl-less projected views a
discovery partial prune writes back — it is `NaN` (`Math.max` over an
`undefined` ttl). -/
def storedTtlSpec (g : CacheEntry) : Prop :=
  ((∀ p ∈ g.members, (p.ttl).isSome) →
    ∃ T, g.maxAgeMs = .fin (T * 1000) ∧ (∃ p ∈ g.members, p.ttl = some T) ∧
      ∀ p ∈ g.members, ∀ u, p.ttl = some u → u ≤ T)
  ∧ ((∃ p ∈ g.members, p.ttl = none) → g.maxAgeMs = .nan)

/-- Claim C5 (amended): after each write-back by register, by heartbeat
on a found member, or by unsubscribe leaving a non-empty remainder, the
stored group `maxAge` equals the maximum member `ttlSeconds` times 1000
whenever every written member carries a `ttlSeconds` field; when the
written list holds a ttl-less member (a projected view stored by a
discovery partial prune), the stored `maxAge` is `NaN` instead of any
maximum. -/
theorem c5_group_ttl_is_max (s : Store) (k pid : String) (b : Body) (src : String)
    (now : Int) :
    (∀ g, cacheGet (subscribeOp s k b src now).store k = some g → storedTtlSpec g)
    ∧ ((peersOf s k).any (fun p => p.peerId = pid) = true →
      ∀ g, cacheGet (heartbeatOp s k pid now).store k = some g → storedTtlSpec g)
    ∧ (∀ g, cacheGet (unsubscribeOp s k pid).store k = some g → storedTtlSpec g) := by
  have main : ∀ ms : List StoredPeer, ms ≠ [] →
      storedTtlSpec ⟨ms, (maxTTL ms).mul1000⟩ := by
    intro ms hne
    constructor
    · intro hfull
      obtain ⟨T, h1, h2, h3⟩ := maxTTL_spec ms hne hfull
      exact ⟨T, by rw [h1]; rfl, h2, h3⟩
    · intro hmiss
      show (maxTTL ms).mul1000 = JNum.nan
      rw [maxTTL_nan_of_missing ms hmiss]
      rfl
  refine ⟨?_, ?_, ?_⟩
  · intro g hg
    simp only [subscribeOp] at hg
    rw [cacheGet_set_self] at hg
    obtain rfl := (Option.some_injective _ hg).symm
    exact main _ (by simp)
  · intro hc g hg
    simp only [heartbeatOp, hc, if_true] at hg
    rw [cacheGet_set_self] at hg
    obtain rfl := (Option.some_injective _ hg).symm
    refine main _ ?_
    obtain ⟨x, hx, _⟩ := List.any_eq_true.mp hc
    have : 0 < (touchFirst pid now (peersOf s k)).length := by
      rw [touchFirst_length]
      exact List.length_pos.mpr (List.ne_nil_of_mem hx)
    exact List.length_pos.mp this
  · intro g hg
    simp only [unsubscribeOp] at hg
    split at hg
    · rename_i hlen
      rw [cacheGet_set_self] at hg
      obtain rfl := (Option.some_injective _ hg).symm
      exact main _ (List.length_pos.mp hlen)
    · rw [cacheGet_del_self] at hg
      simp at hg

/-- A stored full record with ttl 300 seconds. -/
def pA : StoredPeer :=
  { name := "a", endpoint := "ea", ttl := some 300, metadata := .obj [],
    peerId := "A", sourceAddress := "1.1.1.1:1", registeredAt := some 0, age := none }

/-- A stored full record with ttl 60 seconds. -/
def pB : StoredPeer :=
  { name := "b", endpoint := "eb", ttl := some 60, metadata := .obj [],
    peerId := "B", sourceAddress := "2.2.2.2:2", registeredAt := some 0, age := none }

/-- A store holding one group `"g"` with members `pA` and `pB`. -/
def sAB : Store := [("g", ⟨[pA, pB], .fin 300000⟩)]

theorem c5_group_ttl_is_max_witness :
    storedTtlSpec ⟨[pA], (maxTTL [pA]).mul1000⟩ :=
  (c5_group_ttl_is_max sAB "g" "B" ⟨.undef, .undef, .undef, .undef, .undef⟩ "x" 0).2.2
    ⟨[pA], (maxTTL [pA]).mul1000⟩ (by rfl)

/-- A register body with client-supplied `peerId` `"A"` and `ttl: 0`. -/
def c5BodyA : Body :=
  { name := .str "a", endpoint := .str "ea", ttl := .num 0,
    metadata := .undef, peerId := .str "A" }

/-- A register body with client-supplied `peerId` `"B"` and no `ttl`
(300-second default). -/
def c5BodyB : Body :=
  { name := .str "b", endpoint := .str "eb", ttl := .undef,
    metadata := .undef, peerId := .str "B" }

/-- A register body with client-supplied `peerId` `"C"` and no `ttl`
(300-second default). -/
def c5BodyC : Body :=
  { name := .str "c", endpoint := .str "ec", ttl := .undef,
    metadata := .undef, peerId := .str "C" }

/-- The store after registering `A` (ttl 0) and `B` (ttl 300) at `t = 0`
and running discovery at `t = 1000`: `A` is pruned and the surviving `B`
is stored as its ttl-less projected view. -/
def c5Store3 : Store :=
  (discoveryOp
    (subscribeOp (subscribeOp [] "g" c5BodyA "h:1" 0).store "g" c5BodyB "h:2" 0).store
    "g" 1000).store

/-- The ttl-less view of `B` that the discovery write-back stored. -/
def c5ViewB : StoredPeer :=
  { name := "b", endpoint := "eb", ttl := none, metadata := .obj [],
    peerId := "B", sourceAddress := "h:2", registeredAt := none, age := some 1 }

/-- The full record registered for `C` at `t = 2000`. -/
def c5PeerC : StoredPeer :=
  { name := "c", endpoint := "ec", ttl := some 300, metadata := .obj [],
    peerId := "C", sourceAddress := "h:3", registeredAt := some 2000, age := none }

/-- Claim C5 counterexample: a reachable register write-back that leaves
the group non-empty whose stored TTL is *not* the maximum `ttlSeconds` of
the written list.  The written list holds the ttl-less view of `B`
(stored by a discovery partial prune) next to the fresh full record of
`C` with `ttlSeconds` 300, and the handler stores `maxAge =
Math.max(undefined, 300) * 1000 = NaN`, which is `T * 1000` for no `T`. -/
theorem c5_view_member_breaks_ttl :
    Reach (subscribeOp c5Store3 "g" c5BodyC "h:3" 2000).store
    ∧ cacheGet (subscribeOp c5Store3 "g" c5BodyC "h:3" 2000).store "g"
        = some ⟨[c5ViewB, c5PeerC], .nan⟩
    ∧ c5PeerC.ttl = some 300
    ∧ ∀ T : Int, (JNum.nan : JNum) ≠ .fin (T * 1000) :=
  ⟨Reach.subscribe _
      (Reach.discovery _
        (Reach.subscribe _
          (Reach.subscribe [] Reach.init "g" c5BodyA "h:1" 0 rfl)
          "g" c5BodyB "h:2" 0 rfl)
        "g" 1000)
      "g" c5BodyC "h:3" 2000 rfl,
   rfl, rfl, fun _ h => JNum.noConfusion h⟩

/-- Claim C6: with no client-supplied `peerId` and fixed
`(groupKey, name, endpoint, sourceAddress)`, the id the register handler
derives is the same deterministic value on both calls — the first 32 hex
characters of the SHA-256 of `name:endpoint:sourceAddress` — and the
second register upserts: afterwards exactly one member of the group
carries that id and the member count is unchanged from the first
register. -/
theorem c6_deterministic_peer_upsert (s : Store) (k src name endpoint : String)
    (b1 b2 : Body)
    (h1n : b1.name = .str name) (h1e : b1.endpoint = .str endpoint)
    (h1p : b1.peerId.truthy = false) (_hv1 : validatePeerData b1 = none)
    (h2n : b2.name = .str name) (h2e : b2.endpoint = .str endpoint)
    (h2p : b2.peerId.truthy = false) (_hv2 : validatePeerData b2 = none)
    (now1 now2 : Int) :
    (subscribeOp s k b1 src now1).peerId = generateDeterministicPeerId name endpoint src
    ∧ (subscribeOp (subscribeOp s k b1 src now1).store k b2 src now2).peerId
        = (subscribeOp s k b1 src now1).peerId
    ∧ (peersOf (subscribeOp (subscribeOp s k b1 src now1).store k b2 src now2).store k).countP
        (fun p => p.peerId == generateDeterministicPeerId name endpoint src) = 1
    ∧ (peersOf (subscribeOp (subscribeOp s k b1 src now1).store k b2 src now2).store k).length
        = (peersOf (subscribeOp s k b1 src now1).store k).length := by
  have hpid1 : resolvedPeerId b1 src = generateDeterministicPeerId name endpoint src := by
    simp [resolvedPeerId, h1p, h1n, h1e, strVal]
  have hpid2 : resolvedPeerId b2 src = generateDeterministicPeerId name endpoint src := by
    simp [resolvedPeerId, h2p, h2n, h2e, strVal]
  have hnew1 : (newPeerData b1 src now1).peerId
      = generateDeterministicPeerId name endpoint src := by
    simp [newPeerData, hpid1]
  have hnew2 : (newPeerData b2 src now2).peerId
      = generateDeterministicPeerId name endpoint src := by
    simp [newPeerData, hpid2]
  have hm1 : peersOf (subscribeOp s k b1 src now1).store k =
      (peersOf s k).filter
          (fun p => p.peerId ≠ generateDeterministicPeerId name endpoint src)
        ++ [newPeerData b1 src now1] := by
    rw [← hpid1]
    simp only [subscribeOp]
    exact peersOf_set_self _ _ _ _
  have hm2 : peersOf (subscribeOp (subscribeOp s k b1 src now1).store k b2 src now2).store k =
      (peersOf s k).filter
          (fun p => p.peerId ≠ generateDeterministicPeerId name endpoint src)
        ++ [newPeerData b2 src now2] := by
    have hstep : peersOf (subscribeOp (subscribeOp s k b1 src now1).store k b2 src now2).store k =
        (peersOf (subscribeOp s k b1 src now1).store k).filter
            (fun p => p.peerId ≠ generateDeterministicPeerId name endpoint src)
          ++ [newPeerData b2 src now2] := by
      rw [← hpid2]
      simp only [subscribeOp]
      exact peersOf_set_self _ _ _ _
    rw [hstep, hm1, List.filter_append]
    have hidem : ((peersOf s k).filter
          (fun p => p.peerId ≠ generateDeterministicPeerId name endpoint src)).filter
            (fun p => p.peerId ≠ generateDeterministicPeerId name endpoint src)
        = (peersOf s k).filter
            (fun p => p.peerId ≠ generateDeterministicPeerId name endpoint src) :=
      List.filter_eq_self.mpr (fun a ha => (List.mem_filter.mp ha).2)
    have hgone : ([newPeerData b1 src now1].filter
          (fun p => p.peerId ≠ generateDeterministicPeerId name endpoint src)) = [] := by
      simp [List.filter_cons, hnew1]
    rw [hidem, hgone, List.append_nil]
  refine ⟨?_, ?_, ?_, ?_⟩
  · exact hpid1
  · exact hpid2.trans hpid1.symm
  · rw [hm2, List.countP_append]
    have hzero : ((peersOf s k).filter
          (fun p => p.peerId ≠ generateDeterministicPeerId name endpoint src)).countP
            (fun p => p.peerId == generateDeterministicPeerId name endpoint src) = 0 := by
      refine List.countP_eq_zero.mpr ?_
      intro a ha
      have := (List.mem_filter.mp ha).2
      simp only [ne_eq, decide_not] at this
      simpa using this
    have hone : ([newPeerData b2 src now2].countP
        (fun p => p.peerId == generateDeterministicPeerId name endpoint src)) = 1 := by
      simp [List.countP_cons, hnew2]
    rw [hzero, hone]
  · rw [hm2, hm1]
    simp

/-- A register body with no ttl, metadata or peerId. -/
def regBody1 : Body :=
  { name := .str "svc1", endpoint := .str "e", ttl := .undef,
    metadata := .undef, peerId := .undef }

theorem c6_deterministic_peer_upsert_witness :
    (subscribeOp [] "g" regBody1 "1.2.3.4:5" 1000).peerId
        = generateDeterministicPeerId "svc1" "e" "1.2.3.4:5"
    ∧ (subscribeOp (subscribeOp [] "g" regBody1 "1.2.3.4:5" 1000).store "g" regBody1
          "1.2.3.4:5" 2000).peerId
        = (subscribeOp [] "g" regBody1 "1.2.3.4:5" 1000).peerId
    ∧ (peersOf (subscribeOp (subscribeOp [] "g" regBody1 "1.2.3.4:5" 1000).store "g" regBody1
          "1.2.3.4:5" 2000).store "g").countP
        (fun p => p.peerId == generateDeterministicPeerId "svc1" "e" "1.2.3.4:5") = 1
    ∧ (peersOf (subscribeOp (subscribeOp [] "g" regBody1 "1.2.3.4:5" 1000).store "g" regBody1
          "1.2.3.4:5" 2000).store "g").length
        = (peersOf (subscribeOp [] "g" regBody1 "1.2.3.4:5" 1000).store "g").length :=
  c6_deterministic_peer_upsert [] "g" "1.2.3.4:5" "svc1" "e" regBody1 regBody1
    rfl rfl rfl rfl rfl rfl rfl rfl 1000 2000

/-- Claim C7: heartbeat answers 404 exactly when no member of the group's
current stored list carries the `peerId`; it never triggers fan-out; on
the 404 branch the store is unchanged; on success it answers 200, writes
back the list with the first matching member's `registeredAt` set to
`now` and the recomputed `maxAge`. -/
theorem c7_heartbeat_not_found_exact (s : Store) (k pid : String) (now : Int) :
    ((heartbeatOp s k pid now).status = 404 ↔ ∀ p ∈ peersOf s k, p.peerId ≠ pid)
    ∧ (heartbeatOp s k pid now).fanout = false
    ∧ ((∀ p ∈ peersOf s k, p.peerId ≠ pid) → (heartbeatOp s k pid now).store = s)
    ∧ ((∃ p ∈ peersOf s k, p.peerId = pid) →
        (heartbeatOp s k pid now).status = 200
        ∧ cacheGet (heartbeatOp s k pid now).store k =
            some ⟨touchFirst pid now (peersOf s k),
                  (maxTTL (touchFirst pid now (peersOf s k))).mul1000⟩
        ∧ ∃ l1 p l2, peersOf s k = l1 ++ p :: l2 ∧ (∀ q ∈ l1, q.peerId ≠ pid)
            ∧ p.peerId = pid
            ∧ touchFirst pid now (peersOf s k)
                = l1 ++ ({ p with registeredAt := some now }) :: l2) := by
  by_cases hc : (peersOf s k).any (fun p => p.peerId = pid) = true
  · obtain ⟨x, hx, hxp⟩ := List.any_eq_true.mp hc
    have hxpid : x.peerId = pid := of_decide_eq_true hxp
    refine ⟨?_, ?_, ?_, ?_⟩
    · constructor
      · intro h404
        simp [heartbeatOp, hc] at h404
      · intro hall
        exact absurd hxpid (hall x hx)
    · simp [heartbeatOp, hc]
    · intro hall
      exact absurd hxpid (hall x hx)
    · intro _
      refine ⟨?_, ?_, ?_⟩
      · simp [heartbeatOp, hc]
      · simp only [heartbeatOp, hc, if_true]
        exact cacheGet_set_self _ _ _ _
      · exact touchFirst_decomp_first _ _ _ hc
  · have hcf : (peersOf s k).any (fun p => p.peerId = pid) = false :=
      Bool.not_eq_true _ |>.mp hc
    have hall : ∀ p ∈ peersOf s k, p.peerId ≠ pid := by
      intro p hp hpp
      exact hc (List.any_eq_true.mpr ⟨p, hp, by simp [hpp]⟩)
    refine ⟨?_, ?_, ?_, ?_⟩
    · constructor
      · intro _
        exact hall
      · intro _
        simp [heartbeatOp, hcf]
    · simp [heartbeatOp, hcf]
    · intro _
      simp [heartbeatOp, hcf]
    · intro hex
      obtain ⟨p, hp, hpp⟩ := hex
      exact absurd hpp (hall p hp)

theorem c7_heartbeat_not_found_exact_witness :
    (heartbeatOp sAB "g" "Z" 5).store = sAB :=
  (c7_heartbeat_not_found_exact sAB "g" "Z" 5).2.2.1 (by decide)

/-- Claim C9: a member that is expired but still in the stored list (no
read has pruned it yet) is found by heartbeat — the handler searches the
raw stored list with no expiry check — so the heartbeat answers 200, the
member's `registeredAt` is reset to `now`, and (whenever its ttl is at
least one second) the member passes the expiration filter again at the
instant of the heartbeat: the stale peer is revived, not 404ed. -/
theorem c9_heartbeat_revives_expired (s : Store) (k pid : String) (now t r : Int)
    (p : StoredPeer) (hmem : p ∈ peersOf s k) (hpid : p.peerId = pid)
    (hnd : ((peersOf s k).map StoredPeer.peerId).Nodup)
    (ht : p.ttl = some t) (hr : p.registeredAt = some r)
    (hexp : t * 1000 ≤ now - r) :
    aliveB now p = false
    ∧ (heartbeatOp s k pid now).status = 200
    ∧ (∃ l1 l2, peersOf s k = l1 ++ p :: l2
        ∧ touchFirst pid now (peersOf s k)
            = l1 ++ ({ p with registeredAt := some now }) :: l2)
    ∧ cacheGet (heartbeatOp s k pid now).store k =
        some ⟨touchFirst pid now (peersOf s k),
              (maxTTL (touchFirst pid now (peersOf s k))).mul1000⟩
    ∧ (1 ≤ t → aliveB now ({ p with registeredAt := some now }) = true) := by
  have hc : (peersOf s k).any (fun q => q.peerId = pid) = true :=
    List.any_eq_true.mpr ⟨p, hmem, by simp [hpid]⟩
  refine ⟨?_, ?_, ?_, ?_, ?_⟩
  · simp only [aliveB, peerAgeMs, peerTtlMs, ht, hr, JNum.ltb]
    simp only [decide_eq_false_iff_not, not_lt]
    exact hexp
  · simp [heartbeatOp, hc]
  · obtain ⟨l1, l2, h1, _, h2⟩ := touchFirst_decomp_nodup _ pid now p hmem hpid hnd
    exact ⟨l1, l2, h1, h2⟩
  · simp only [heartbeatOp, hc, if_true]
    exact cacheGet_set_self _ _ _ _
  · intro hpos
    simp only [aliveB, peerAgeMs, peerTtlMs, ht, JNum.ltb]
    simp only [decide_eq_true_eq]
    omega

/-- A full record whose ttl (100 s) has elapsed at `now = 100000`. -/
def pExpired : StoredPeer :=
  { name := "x", endpoint := "ex", ttl := some 100, metadata := .obj [],
    peerId := "X", sourceAddress := "3.3.3.3:3", registeredAt := some 0, age := none }

/-- A store holding one group `"g"` whose sole member is expired. -/
def sExpired : Store := [("g", ⟨[pExpired], .fin 100000⟩)]

theorem c9_heartbeat_revives_expired_witness :
    (heartbeatOp sExpired "g" "X" 100000).status = 200 :=
  (c9_heartbeat_revives_expired sExpired "g" "X" 100000 100 0 pExpired
    (by decide) (by decide) (by decide) (by decide) (by decide) (by decide)).2.1

/-- Claim C10: a register with `ttlSeconds = 0` passes the middleware
(`0` is falsy, so the fatal `ttl` branch is skipped), the response
reports ttl `0`, and the stored member is dropped by the expiration
filter at every instant `now ≥ registeredAt` (strictly `now −
registeredAt < 0` never holds), so the written group filters exactly as
if the new member were absent — it can appear in no discovery response
and no fan-out push. -/
theorem c10_zero_ttl_registered_never_active (s : Store) (k name endpoint src : String)
    (now0 now : Int) (hn : name ≠ "") (he : endpoint ≠ "") (hle : now0 ≤ now) :
    validatePeerData ⟨.str name, .str endpoint, .num 0, .undef, .undef⟩ = none
    ∧ (subscribeOp s k ⟨.str name, .str endpoint, .num 0, .undef, .undef⟩ src now0).ttlResp
        = .num 0
    ∧ filterActivePeers now
        (peersOf (subscribeOp s k ⟨.str name, .str endpoint, .num 0, .undef, .undef⟩
          src now0).store k)
      = filterActivePeers now
          ((peersOf s k).filter
            (fun p => p.peerId ≠
              (subscribeOp s k ⟨.str name, .str endpoint, .num 0, .undef, .undef⟩
                src now0).peerId)) := by
  refine ⟨?_, ?_, ?_⟩
  · simp [validatePeerData, JsValue.truthy, JsValue.isString, JsValue.typeofObject, hn, he]
  · rfl
  · have hm : peersOf (subscribeOp s k ⟨.str name, .str endpoint, .num 0, .undef, .undef⟩
        src now0).store k =
        (peersOf s k).filter
            (fun p => p.peerId ≠
              resolvedPeerId ⟨.str name, .str endpoint, .num 0, .undef, .undef⟩ src)
          ++ [newPeerData ⟨.str name, .str endpoint, .num 0, .undef, .undef⟩ src now0] := by
      simp only [subscribeOp]
      exact peersOf_set_self _ _ _ _
    rw [hm, filterActivePeers_append]
    have hdead : filterActivePeers now
        [newPeerData ⟨.str name, .str endpoint, .num 0, .undef, .undef⟩ src now0] = [] := by
      have halive : aliveB now
          (newPeerData ⟨.str name, .str endpoint, .num 0, .undef, .undef⟩ src now0)
          = false := by
        simp only [aliveB, newPeerData, peerAgeMs, peerTtlMs, effectiveTtlVal, numVal,
          JNum.ltb]
        simp only [decide_eq_false_iff_not, not_lt]
        omega
      simp [filterActivePeers, List.filter, halive]
    rw [hdead, List.append_nil]
    rfl

theorem c10_zero_ttl_registered_never_active_witness :
    (subscribeOp [] "g" ⟨.str "svc1", .str "e", .num 0, .undef, .undef⟩
      "1.2.3.4:5" 0).ttlResp = .num 0 :=
  (c10_zero_ttl_registered_never_active [] "g" "svc1" "e" "1.2.3.4:5" 0 5000
    (by decide) (by decide) (by decide)).2.1

/-- Claim C8: snapshot save dumps every stored `(hash, members)` pair
verbatim — per key, the dumped member list is exactly the stored one, with
no filtering — and load filters each dumped group by the expiry predicate,
inserting only groups with a surviving member; hence a save immediately
followed by a load into an empty cache reproduces, per key, exactly the
non-expired members. -/
theorem c8_snapshot_roundtrip (s : Store) (now : Int) (hnd : (s.map Prod.fst).Nodup) :
    (∀ k, (persistenceSave s).lookup k = (cacheGet s k).map CacheEntry.members)
    ∧ (∀ k, peersOf (persistenceLoad now (persistenceSave s) []) k
        = (peersOf s k).filter (aliveB now)) := by
  refine ⟨fun k => save_lookup s k, ?_⟩
  intro k
  have hnd' : ((persistenceSave s).map Prod.fst).Nodup := by
    have hkeys : (persistenceSave s).map Prod.fst = s.map Prod.fst := by
      simp [persistenceSave]
    rw [hkeys]
    exact hnd
  have h := load_lookup now (persistenceSave s) [] k hnd'
  rw [save_lookup s k] at h
  cases hg : cacheGet s k with
  | none =>
    rw [hg] at h
    simp only [Option.map_none'] at h
    simp [cacheGet] at h
    simp [peersOf, h, hg]
  | some g =>
    rw [hg] at h
    simp only [Option.map_some'] at h
    by_cases hf : g.members.filter (aliveB now) = []
    · rw [if_pos hf] at h
      simp [cacheGet] at h
      simp [peersOf, h, hg, hf]
    · rw [if_neg hf] at h
      simp [peersOf, h, hg]

theorem c8_snapshot_roundtrip_witness :
    (∀ k, (persistenceSave sAB).lookup k = (cacheGet sAB k).map CacheEntry.members)
    ∧ (∀ k, peersOf (persistenceLoad 400000 (persistenceSave sAB) []) k
        = (peersOf sAB k).filter (aliveB 400000)) :=
  c8_snapshot_roundtrip sAB 400000 (by decide)
